import Mathlib

/-!
Verification of the inventory matching engine (`src/lib/tambo.ts` /
`services/inventory`).

Modelling conventions:
* JS strings are modelled as lists of character code points (`Str := List Nat`).
  `str` converts a Lean string literal to this representation for concrete
  examples.
* JS numbers are modelled as rationals (`ℚ`); every rational models a finite
  JS number, so `Number.isFinite` is the constant `true` in this model
  (`NaN`/`Infinity` are outside the model).
* The module-level `inventory` array (loaded from `inventory.json`, outside the
  engine) is passed explicitly to every operation, as the spec's design notes
  prescribe.
* `Array.prototype.sort` with a numeric comparator is (per ES2019) a stable
  sort; it is modelled by the stable insertion sort `sortBy`.
-/

namespace Inventory

/-- A JS string, as its list of character code points. -/
abbrev Str := List Nat

/-- Convert a Lean string literal into the `Str` model (for concrete inputs). -/
def str (s : String) : Str := s.data.map Char.toNat

/-- Code-point lowercasing as used by `toLocaleLowerCase` on the ASCII range:
uppercase letters `A`..`Z` (codes 65..90) map to `a`..`z`, all other code
points are fixed. -/
def lowerCode (c : Nat) : Nat := if 65 ≤ c ∧ c ≤ 90 then c + 32 else c

/-- Whitespace test used by `String.prototype.trim` (space, tab, LF, VT, FF,
CR in this model). -/
def isWS (c : Nat) : Bool :=
  decide (c = 32 ∨ c = 9 ∨ c = 10 ∨ c = 11 ∨ c = 12 ∨ c = 13)

/-- `toLocaleLowerCase`. -/
def toLowerStr (s : Str) : Str := s.map lowerCode

/-- `String.prototype.trim`: drop whitespace from both ends. -/
def trimStr (s : Str) : Str :=
  (((s.dropWhile isWS).reverse).dropWhile isWS).reverse

/-- `const normalize = (value?: string) => value?.toLocaleLowerCase().trim() ?? "";` -/
def normalize (value : Option Str) : Str :=
  match value with
  | none => []
  | some s => trimStr (toLowerStr s)

/-- `hay.startsWith(need)` on code-point lists. -/
def startsWithStr (hay need : Str) : Bool :=
  match need, hay with
  | [], _ => true
  | _ :: _, [] => false
  | a :: as, b :: bs => a == b && startsWithStr bs as

/-- `hay.includes(need)`: `need` occurs contiguously somewhere in `hay`. -/
def includesStr (hay need : Str) : Bool :=
  match hay with
  | [] => need.isEmpty
  | _ :: t => startsWithStr hay need || includesStr t need

/-- `s.split(" ")`: split on the single space character (code 32); adjacent
separators and boundary separators produce empty tokens, and the empty string
yields the single token `""`, exactly as in JS. -/
def splitOnSpace : Str → List Str
  | [] => [[]]
  | c :: t =>
    if c == 32 then [] :: splitOnSpace t
    else
      match splitOnSpace t with
      | [] => [[c]]
      | h :: r => (c :: h) :: r

/-- `InventoryItem` from `services/inventory`. -/
structure InventoryItem where
  sku : Str
  name : Str
  brand : Str
  category : Str
  unitPrice : ℚ
  unit : Str
  location : Str
  shelfLifeDays : ℤ
  quantityAtRisk : Option ℚ
  daysUntilExpiry : Option ℚ
deriving DecidableEq

/-- The `matchedBy` tag of a match result. -/
inductive MatchedBy where
  | sku
  | name
  | brand
  | category
deriving DecidableEq

/-- `InventoryMatch` from `services/inventory`. -/
structure InventoryMatch where
  item : InventoryItem
  matchConfidence : ℚ
  matchedBy : MatchedBy
deriving DecidableEq

/-- `LossEstimate` from `services/inventory`. -/
structure LossEstimate where
  item : InventoryItem
  quantity : ℚ
  totalValue : ℚ
  perUnitValue : ℚ
deriving DecidableEq

/-- The query object of `findInventoryMatches`; absent fields are `none`. -/
structure MatchQuery where
  sku : Option Str
  name : Option Str
  brand : Option Str
  category : Option Str
deriving DecidableEq

/-- The total preorder induced by the comparator
`(a, b) => b.matchConfidence - a.matchConfidence`: `a` may stay before `b`
iff the comparator is nonpositive. -/
def confGE (a b : InventoryMatch) : Prop :=
  b.matchConfidence ≤ a.matchConfidence

instance : DecidableRel confGE :=
  fun a b => inferInstanceAs (Decidable (b.matchConfidence ≤ a.matchConfidence))

instance : IsTotal InventoryMatch confGE :=
  ⟨fun a b => le_total b.matchConfidence a.matchConfidence⟩

instance : IsTrans InventoryMatch confGE :=
  ⟨fun _ _ _ h1 h2 => le_trans h2 h1⟩

/-- `.sort((a, b) => b.matchConfidence - a.matchConfidence)`: ES2019 requires
`Array.prototype.sort` to be stable, so it is modelled by the stable
`insertionSort` on the comparator's preorder. -/
def sortByConfDesc (l : List InventoryMatch) : List InventoryMatch :=
  l.insertionSort confGE

/-- The body of the `inventory.forEach` loop of `findInventoryMatches`: given
the (already normalized) query fields, either push one match for `item` onto
`matches` — trying sku, then name, then brand, then category, returning at the
first that fires — or leave `matches` unchanged. -/
def primaryAccum (sku name brand category : Str)
    (matchesArr : List InventoryMatch) (item : InventoryItem) : List InventoryMatch :=
  let itemSku := normalize (some item.sku)
  let itemName := normalize (some item.name)
  let itemBrand := normalize (some item.brand)
  let itemCategory := normalize (some item.category)
  if sku ≠ [] ∧ itemSku = sku then
    matchesArr ++ [⟨item, 1, MatchedBy.sku⟩]
  else if name ≠ [] ∧ (includesStr itemName name ∨ includesStr name itemName) then
    matchesArr ++ [⟨item, 9/10, MatchedBy.name⟩]
  else if brand ≠ [] ∧ includesStr itemBrand brand then
    matchesArr ++ [⟨item, 6/10, MatchedBy.brand⟩]
  else if category ≠ [] ∧ includesStr itemCategory category then
    matchesArr ++ [⟨item, 4/10, MatchedBy.category⟩]
  else matchesArr

/-- The `matches` array after the primary `forEach` pass of
`findInventoryMatches`. -/
def primaryPass (inventory : List InventoryItem) (query : MatchQuery) :
    List InventoryMatch :=
  inventory.foldl
    (primaryAccum (normalize query.sku) (normalize query.name)
      (normalize query.brand) (normalize query.category)) []

/-- One element of the fuzzy-fallback `inventory.map` of
`findInventoryMatches`: token-overlap and length-distance heuristic on the
normalized names. -/
def fuzzyFor (name : Str) (item : InventoryItem) : InventoryMatch :=
  let itemName := normalize (some item.name)
  let distance : ℚ := (((itemName.length : ℤ) - (name.length : ℤ)).natAbs : ℚ)
  let overlap : ℚ :=
    (((splitOnSpace itemName).filter fun token => includesStr name token).length : ℚ)
  let confidence : ℚ :=
    max (1/5) (overlap / max 1 ((splitOnSpace itemName).length : ℚ) - distance * (1/50))
  ⟨item, confidence, MatchedBy.name⟩

/-- `findInventoryMatches` from `services/inventory` (with the module-level
`inventory` passed explicitly). -/
def findInventoryMatches (inventory : List InventoryItem) (query : MatchQuery) :
    List InventoryMatch :=
  let name := normalize query.name
  let matchesArr := primaryPass inventory query
  if matchesArr.isEmpty ∧ name ≠ [] then
    let fuzzyMatches :=
      sortByConfDesc
        ((inventory.map (fuzzyFor name)).filter fun m =>
          decide (3/10 < m.matchConfidence))
    if ¬ fuzzyMatches.isEmpty then fuzzyMatches.take 3
    else (sortByConfDesc matchesArr).take 5
  else (sortByConfDesc matchesArr).take 5

/-- The total preorder induced by the comparator
`(a, b) => (a.daysUntilExpiry ?? 0) - (b.daysUntilExpiry ?? 0)` of
`getExpiringItems`. -/
def expiryLE (a b : InventoryItem) : Prop :=
  a.daysUntilExpiry.getD 0 ≤ b.daysUntilExpiry.getD 0

instance : DecidableRel expiryLE :=
  fun a b =>
    inferInstanceAs (Decidable (a.daysUntilExpiry.getD 0 ≤ b.daysUntilExpiry.getD 0))

instance : IsTotal InventoryItem expiryLE :=
  ⟨fun a b => le_total (a.daysUntilExpiry.getD 0) (b.daysUntilExpiry.getD 0)⟩

instance : IsTrans InventoryItem expiryLE :=
  ⟨fun _ _ _ h1 h2 => le_trans h1 h2⟩

/-- The `getExpiringItems` comparator with the `?? 0` fallback generalized to
an arbitrary default `dflt`; `expiryLE` is exactly `expiryLED 0`. Used to
state that the choice of default is immaterial on the filtered list. -/
def expiryLED (dflt : ℚ) (a b : InventoryItem) : Prop :=
  a.daysUntilExpiry.getD dflt ≤ b.daysUntilExpiry.getD dflt

instance (dflt : ℚ) : DecidableRel (expiryLED dflt) :=
  fun a b =>
    inferInstanceAs (Decidable (a.daysUntilExpiry.getD dflt ≤ b.daysUntilExpiry.getD dflt))

/-- `getExpiringItems` from `services/inventory`: filter to items with a
numeric `daysUntilExpiry` at most `withinDays`, then stable-sort ascending by
`daysUntilExpiry ?? 0`. -/
def getExpiringItems (inventory : List InventoryItem) (withinDays : ℚ) :
    List InventoryItem :=
  (inventory.filter fun item =>
    match item.daysUntilExpiry with
    | some d => decide (d ≤ withinDays)
    | none => false).insertionSort expiryLE

/-- `getExpiringItems` at its default argument (`withinDays: number = 30`). -/
def getExpiringItemsDefault (inventory : List InventoryItem) : List InventoryItem :=
  getExpiringItems inventory 30

/-- `Number.isFinite`: every rational in this model is a finite JS number. -/
def numberIsFinite (_ : ℚ) : Bool := true

/-- `estimateLossForItem` from `services/inventory`. -/
def estimateLossForItem (inventory : List InventoryItem)
    (nameOrSku : Str) (quantity : ℚ) : Option LossEstimate :=
  if nameOrSku = [] ∨ quantity ≤ 0 then none
  else
    match findInventoryMatches inventory ⟨some nameOrSku, some nameOrSku, none, none⟩ with
    | [] => none
    | m :: _ =>
      let effectiveQuantity :=
        if numberIsFinite quantity then quantity else m.item.quantityAtRisk.getD 0
      let totalValue := m.item.unitPrice * effectiveQuantity
      some ⟨m.item, effectiveQuantity, totalValue, m.item.unitPrice⟩

/-- `resolveInventoryItem` from `services/inventory`. -/
def resolveInventoryItem (inventory : List InventoryItem) (query : Str) :
    Option InventoryItem :=
  if query = [] then none
  else
    let normalizedQuery := normalize (some query)
    if normalizedQuery = [] then none
    else
      match inventory.find? (fun item =>
          normalize (some item.sku) == normalizedQuery
            || normalize (some item.name) == normalizedQuery) with
      | some exactMatch => some exactMatch
      | none =>
        inventory.find? fun item =>
          includesStr (normalize (some item.name)) normalizedQuery

/-- `getInventory` from `services/inventory` (`listCatalog` in the spec):
returns the catalog unchanged. -/
def getInventory (inventory : List InventoryItem) : List InventoryItem :=
  inventory

/-! ### Spec-side definitions

The following definitions transcribe the *spec's wording* of the matching
contracts, to be compared with the source-derived definitions above. -/

/-- Spec wording of the primary-pass rule for one item: evaluate the four
criteria in strict priority order sku, name, brand, category and stop at the
first one that fires ("non-empty" is read, as spec §4.3 prescribes, as
non-empty after normalization):
1. confidence 1.0, matchedBy sku, when the normalized query sku is non-empty
   and equals the item's normalized SKU exactly;
2. else confidence 0.9, matchedBy name, when the normalized query name is
   non-empty and the item's normalized name contains the query name or the
   query name contains the item's normalized name;
3. else confidence 0.6, matchedBy brand, on brand containment;
4. else confidence 0.4, matchedBy category, on category containment;
and nothing when no criterion fires. -/
def primarySpec (query : MatchQuery) (item : InventoryItem) : Option InventoryMatch :=
  let skuCrit : Option InventoryMatch :=
    if normalize query.sku ≠ [] ∧ normalize (some item.sku) = normalize query.sku then
      some ⟨item, 1, MatchedBy.sku⟩
    else none
  let nameCrit : Option InventoryMatch :=
    if normalize query.name ≠ [] ∧
        (includesStr (normalize (some item.name)) (normalize query.name)
          ∨ includesStr (normalize query.name) (normalize (some item.name))) then
      some ⟨item, 9/10, MatchedBy.name⟩
    else none
  let brandCrit : Option InventoryMatch :=
    if normalize query.brand ≠ [] ∧
        includesStr (normalize (some item.brand)) (normalize query.brand) then
      some ⟨item, 6/10, MatchedBy.brand⟩
    else none
  let categoryCrit : Option InventoryMatch :=
    if normalize query.category ≠ [] ∧
        includesStr (normalize (some item.category)) (normalize query.category) then
      some ⟨item, 4/10, MatchedBy.category⟩
    else none
  ((skuCrit.orElse fun _ => nameCrit).orElse fun _ => brandCrit).orElse
    fun _ => categoryCrit

/-- Spec wording of one fuzzy-fallback candidate for a catalog item, for a
normalized non-empty query name: `overlap` is the count of the (space
character) delimited tokens of the normalized item name that occur as
substrings of the normalized query name, `lengthDiff` the absolute difference
of the two names' character lengths, and
`confidence = max(0.2, overlap / max(1, itemNameTokenCount) - lengthDiff * 0.02)`. -/
def fuzzyCandidateSpec (name : Str) (item : InventoryItem) : InventoryMatch :=
  let itemName := normalize (some item.name)
  let tokens := splitOnSpace itemName
  let overlap : ℚ := ((tokens.filter fun token => includesStr name token).length : ℚ)
  let lengthDiff : ℚ := (((itemName.length : ℤ) - (name.length : ℤ)).natAbs : ℚ)
  let confidence : ℚ :=
    max (1/5) (overlap / max 1 (tokens.length : ℚ) - lengthDiff * (1/50))
  ⟨item, confidence, MatchedBy.name⟩

/-- Spec wording of the fuzzy fallback's candidate list: score every catalog
item, keep only those with confidence strictly greater than 0.3, and sort
descending by confidence (stable). -/
def fuzzySpec (inventory : List InventoryItem) (name : Str) : List InventoryMatch :=
  sortByConfDesc
    ((inventory.map (fuzzyCandidateSpec name)).filter fun m =>
      decide (3/10 < m.matchConfidence))

/-- Spec wording of the `resolveItem` contract: none if the query is empty
after normalization; otherwise, scanning the catalog in order, the first item
whose normalized SKU or normalized name equals the normalized query exactly,
and if no such item exists, the first item whose normalized name contains the
normalized query as a substring; none if neither search succeeds. -/
def resolveItemSpec (inventory : List InventoryItem) (query : Str) :
    Option InventoryItem :=
  let normalizedQuery := normalize (some query)
  if normalizedQuery = [] then none
  else
    match inventory.find? (fun item =>
        normalize (some item.sku) == normalizedQuery
          || normalize (some item.name) == normalizedQuery) with
    | some exactMatch => some exactMatch
    | none =>
      inventory.find? fun item =>
        includesStr (normalize (some item.name)) normalizedQuery

/-! ### The module state

The exposed operations share one piece of module state: the catalog array.
Each operation is modelled in state-passing style — it receives the module
state and returns its result together with the state after the call — which
makes the frame property ("no operation mutates the catalog") a statement
about the returned state. The TS function bodies contain no assignment to
`inventory` (the only mutation, `matches.push`, targets a function-local
array), so each body is a pure read of the state. -/

structure EngineState where
  inventory : List InventoryItem
deriving DecidableEq

/-- `findInventoryMatches` as an operation on the module state. -/
def matchItemsOp (query : MatchQuery) (s : EngineState) :
    List InventoryMatch × EngineState :=
  (findInventoryMatches s.inventory query, s)

/-- `resolveInventoryItem` as an operation on the module state. -/
def resolveItemOp (query : Str) (s : EngineState) :
    Option InventoryItem × EngineState :=
  (resolveInventoryItem s.inventory query, s)

/-- `estimateLossForItem` as an operation on the module state. -/
def estimateLossOp (nameOrSku : Str) (quantity : ℚ) (s : EngineState) :
    Option LossEstimate × EngineState :=
  (estimateLossForItem s.inventory nameOrSku quantity, s)

/-- `getExpiringItems` as an operation on the module state. -/
def expiringItemsOp (withinDays : ℚ) (s : EngineState) :
    List InventoryItem × EngineState :=
  (getExpiringItems s.inventory withinDays, s)

/-- `getInventory` (`listCatalog`) as an operation on the module state. -/
def listCatalogOp (s : EngineState) : List InventoryItem × EngineState :=
  (getInventory s.inventory, s)

/-! ### Concrete fixtures (used by witnesses) -/

/-- The spec §8 scenario item: `{sku:"MLK-500", name:"Amul Milk 500ml", unitPrice:72, ...}`. -/
def itemA : InventoryItem :=
  ⟨str "MLK-500", str "Amul Milk 500ml", str "Amul", str "Dairy", 72,
   str "bottle", str "ambient", 7, some 40, some 2⟩

/-- An item with SKU `SKU123` (spec §8 normalization scenario). -/
def itemS : InventoryItem :=
  ⟨str "SKU123", str "Widget", str "Acme", str "Tools", 5,
   str "pc", str "aisle 1", 30, none, none⟩

/-- Expiry scenario: `daysUntilExpiry = 2`. -/
def itemE2 : InventoryItem :=
  ⟨str "E2", str "Curd Cup", str "Amul", str "Dairy", 30,
   str "cup", str "chiller", 10, some 12, some 2⟩

/-- Expiry scenario: `daysUntilExpiry = 10`. -/
def itemE10 : InventoryItem :=
  ⟨str "E10", str "Paneer Block", str "Amul", str "Dairy", 95,
   str "pack", str "chiller", 15, some 6, some 10⟩

/-- Expiry scenario: `daysUntilExpiry` absent. -/
def itemEN : InventoryItem :=
  ⟨str "EN", str "Rock Salt", str "Tata", str "Staples", 25,
   str "jar", str "ambient", 720, none, none⟩

/-! ### String lemmas -/

theorem lowerCode_idem (c : Nat) : lowerCode (lowerCode c) = lowerCode c := by
  by_cases h : 65 ≤ c ∧ c ≤ 90 <;> simp [lowerCode, h]
  omega

theorem isWS_lowerCode (c : Nat) : isWS (lowerCode c) = isWS c := by
  unfold lowerCode
  split
  · have h1 : isWS (c + 32) = false := by simp [isWS]; omega
    have h2 : isWS c = false := by simp [isWS]; omega
    rw [h1, h2]
  · rfl

theorem toLowerStr_idem (s : Str) : toLowerStr (toLowerStr s) = toLowerStr s := by
  simp only [toLowerStr, List.map_map]
  exact List.map_congr_left fun a _ => lowerCode_idem a

theorem dropWhile_toLowerStr (s : Str) :
    (toLowerStr s).dropWhile isWS = toLowerStr (s.dropWhile isWS) := by
  have hp : (isWS ∘ lowerCode) = isWS := funext isWS_lowerCode
  simp only [toLowerStr]
  rw [List.dropWhile_map, hp]

theorem reverse_toLowerStr (s : Str) :
    toLowerStr s.reverse = (toLowerStr s).reverse :=
  List.map_reverse lowerCode s

theorem trimStr_toLowerStr (s : Str) :
    trimStr (toLowerStr s) = toLowerStr (trimStr s) := by
  show ((((toLowerStr s).dropWhile isWS).reverse).dropWhile isWS).reverse
      = toLowerStr (trimStr s)
  rw [dropWhile_toLowerStr, ← reverse_toLowerStr, dropWhile_toLowerStr,
    ← reverse_toLowerStr]
  rfl

theorem dropWhile_dropWhile (p : Nat → Bool) (l : Str) :
    (l.dropWhile p).dropWhile p = l.dropWhile p := by
  induction l with
  | nil => rfl
  | cons a t ih =>
    by_cases h : p a
    · simp [List.dropWhile_cons, h, ih]
    · simp [List.dropWhile_cons, h]

theorem dropWhile_eq_self (p : Nat → Bool) (l : Str)
    (h : ∀ c, l.head? = some c → p c = false) : l.dropWhile p = l := by
  cases l with
  | nil => rfl
  | cons a t => simp [List.dropWhile_cons, h a rfl]

theorem head?_isWS_trimStr (s : Str) (c : Nat)
    (h : (trimStr s).head? = some c) : isWS c = false := by
  have hsuf : ((s.dropWhile isWS).reverse).dropWhile isWS <:+ (s.dropWhile isWS).reverse :=
    List.dropWhile_suffix isWS
  have hpre : trimStr s <+: s.dropWhile isWS := by
    have := List.reverse_prefix.mpr hsuf
    simpa [trimStr] using this
  obtain ⟨t, ht⟩ := hpre
  have hx : (s.dropWhile isWS).head? = some c := by
    rw [← ht, List.head?_append, h]
    rfl
  have hd := List.head?_dropWhile_not isWS s
  rw [hx] at hd
  exact hd

theorem trimStr_idem (s : Str) : trimStr (trimStr s) = trimStr s := by
  have step1 : (trimStr s).dropWhile isWS = trimStr s :=
    dropWhile_eq_self isWS (trimStr s) (head?_isWS_trimStr s)
  have step2 : (trimStr s).reverse.dropWhile isWS = (trimStr s).reverse := by
    show (((((s.dropWhile isWS).reverse).dropWhile isWS).reverse).reverse).dropWhile isWS
        = ((((s.dropWhile isWS).reverse).dropWhile isWS).reverse).reverse
    rw [List.reverse_reverse]
    exact dropWhile_dropWhile isWS _
  show (((trimStr s).dropWhile isWS).reverse.dropWhile isWS).reverse = trimStr s
  rw [step1, step2, List.reverse_reverse]

theorem normalize_idem (v : Option Str) :
    normalize (some (normalize v)) = normalize v := by
  cases v with
  | none => rfl
  | some s =>
    show trimStr (toLowerStr (trimStr (toLowerStr s))) = trimStr (toLowerStr s)
    rw [← trimStr_toLowerStr, toLowerStr_idem, trimStr_idem]

/-! ### Primary-pass lemmas -/

theorem primaryAccum_eq (q : MatchQuery) (acc : List InventoryMatch)
    (item : InventoryItem) :
    primaryAccum (normalize q.sku) (normalize q.name) (normalize q.brand)
        (normalize q.category) acc item
      = acc ++ (primarySpec q item).toList := by
  unfold primaryAccum primarySpec
  by_cases h1 : normalize q.sku ≠ [] ∧ normalize (some item.sku) = normalize q.sku
  · simp [h1, Option.orElse]
  · by_cases h2 : normalize q.name ≠ [] ∧
        (includesStr (normalize (some item.name)) (normalize q.name)
          ∨ includesStr (normalize q.name) (normalize (some item.name)))
    · simp [h1, h2, Option.orElse]
    · by_cases h3 : normalize q.brand ≠ [] ∧
          includesStr (normalize (some item.brand)) (normalize q.brand)
      · simp [h1, h2, h3, Option.orElse]
      · by_cases h4 : normalize q.category ≠ [] ∧
            includesStr (normalize (some item.category)) (normalize q.category)
        · simp [h1, h2, h3, h4, Option.orElse]
        · simp [h1, h2, h3, h4, Option.orElse]

theorem foldl_primaryAccum (q : MatchQuery) (inv : List InventoryItem)
    (acc : List InventoryMatch) :
    inv.foldl
        (primaryAccum (normalize q.sku) (normalize q.name) (normalize q.brand)
          (normalize q.category)) acc
      = acc ++ inv.filterMap (primarySpec q) := by
  induction inv generalizing acc with
  | nil => simp
  | cons item t ih =>
    rw [List.foldl_cons, primaryAccum_eq, ih, List.filterMap_cons]
    cases h : primarySpec q item <;> simp [h]

theorem primaryPass_eq_filterMap (inv : List InventoryItem) (q : MatchQuery) :
    primaryPass inv q = inv.filterMap (primarySpec q) := by
  simpa using foldl_primaryAccum q inv []

/-! ### Stable-sort lemmas -/

theorem filter_orderedInsert {α : Type _} (r : α → α → Prop) [DecidableRel r]
    (p : α → Bool) (hp : ∀ x y, p x = true → p y = true → r x y)
    (a : α) (l : List α) :
    (l.orderedInsert r a).filter p
      = if p a then a :: l.filter p else l.filter p := by
  induction l with
  | nil =>
    simp only [List.orderedInsert, List.filter_cons, List.filter_nil]
  | cons b t ih =>
    simp only [List.orderedInsert]
    by_cases hr : r a b
    · rw [if_pos hr, List.filter_cons]
    · rw [if_neg hr]
      by_cases hpa : p a = true
      · have hpb : p b = false := by
          cases hpbt : p b
          · rfl
          · exact absurd (hp a b hpa hpbt) hr
        simp [List.filter_cons, ih, hpa, hpb]
      · have hpa' : p a = false := by
          revert hpa
          cases p a <;> simp
        simp [List.filter_cons, ih, hpa']

theorem filter_insertionSort {α : Type _} (r : α → α → Prop) [DecidableRel r]
    (p : α → Bool) (hp : ∀ x y, p x = true → p y = true → r x y) (l : List α) :
    (l.insertionSort r).filter p = l.filter p := by
  induction l with
  | nil => rfl
  | cons a t ih =>
    simp only [List.insertionSort]
    rw [filter_orderedInsert r p hp, ih, List.filter_cons]

theorem orderedInsert_congr {α : Type _} (r s : α → α → Prop)
    [DecidableRel r] [DecidableRel s] (a : α) (l : List α)
    (h : ∀ y ∈ l, r a y ↔ s a y) :
    l.orderedInsert r a = l.orderedInsert s a := by
  induction l with
  | nil => rfl
  | cons b t ih =>
    simp only [List.orderedInsert]
    by_cases hr : r a b
    · rw [if_pos hr, if_pos ((h b (by simp)).mp hr)]
    · rw [if_neg hr, if_neg (fun hs => hr ((h b (by simp)).mpr hs)),
        ih fun y hy => h y (by simp [hy])]

theorem insertionSort_congr {α : Type _} (r s : α → α → Prop)
    [DecidableRel r] [DecidableRel s] (l : List α)
    (h : ∀ x ∈ l, ∀ y ∈ l, r x y ↔ s x y) :
    l.insertionSort r = l.insertionSort s := by
  induction l with
  | nil => rfl
  | cons a t ih =>
    simp only [List.insertionSort]
    rw [ih fun x hx y hy => h x (by simp [hx]) y (by simp [hy])]
    exact orderedInsert_congr r s a _ fun y hy =>
      h a (by simp) y (List.mem_cons_of_mem a ((List.mem_insertionSort s).mp hy))

theorem filterMap_items_sublist (f : InventoryItem → Option InventoryMatch)
    (hf : ∀ x r, f x = some r → r.item = x) (inv : List InventoryItem) :
    List.Sublist ((inv.filterMap f).map InventoryMatch.item) inv := by
  induction inv with
  | nil => simp
  | cons a t ih =>
    rw [List.filterMap_cons]
    cases h : f a with
    | none => exact ih.cons a
    | some r =>
      simp only [List.map_cons]
      rw [hf a r h]
      exact ih.cons₂ a

theorem primarySpec_item (q : MatchQuery) (x : InventoryItem) (r : InventoryMatch)
    (h : primarySpec q x = some r) : r.item = x := by
  unfold primarySpec at h
  by_cases h1 : normalize q.sku ≠ [] ∧ normalize (some x.sku) = normalize q.sku
  · simp [h1, Option.orElse] at h
    rw [← h]
  · by_cases h2 : normalize q.name ≠ [] ∧
        (includesStr (normalize (some x.name)) (normalize q.name)
          ∨ includesStr (normalize q.name) (normalize (some x.name)))
    · simp [h1, h2, Option.orElse] at h
      rw [← h]
    · by_cases h3 : normalize q.brand ≠ [] ∧
          includesStr (normalize (some x.brand)) (normalize q.brand)
      · simp [h1, h2, h3, Option.orElse] at h
        rw [← h]
      · by_cases h4 : normalize q.category ≠ [] ∧
            includesStr (normalize (some x.category)) (normalize q.category)
        · simp [h1, h2, h3, h4, Option.orElse] at h
          rw [← h]
        · simp [h1, h2, h3, h4, Option.orElse] at h

/-! ### Case analysis of `findInventoryMatches` -/

theorem fuzzySpec_eq (inv : List InventoryItem) (name : Str) :
    fuzzySpec inv name
      = sortByConfDesc ((inv.map (fuzzyFor name)).filter fun m =>
          decide (3/10 < m.matchConfidence)) :=
  rfl

theorem findInventoryMatches_eq_primary (inv : List InventoryItem) (q : MatchQuery)
    (h : primaryPass inv q ≠ [] ∨ normalize q.name = []) :
    findInventoryMatches inv q = (sortByConfDesc (primaryPass inv q)).take 5 := by
  unfold findInventoryMatches
  rw [if_neg]
  intro hcond
  rcases h with h | h
  · exact h (List.isEmpty_iff.mp hcond.1)
  · exact hcond.2 h

theorem findInventoryMatches_eq_take_fuzzy (inv : List InventoryItem) (q : MatchQuery)
    (hp : primaryPass inv q = []) (hn : normalize q.name ≠ []) :
    findInventoryMatches inv q = (fuzzySpec inv (normalize q.name)).take 3 := by
  unfold findInventoryMatches
  rw [if_pos ⟨List.isEmpty_iff.mpr hp, hn⟩, ← fuzzySpec_eq]
  by_cases hf : fuzzySpec inv (normalize q.name) = []
  · rw [if_neg, hp, hf]
    · rfl
    · intro hcond
      exact hcond (List.isEmpty_iff.mpr hf)
  · rw [if_pos fun hcond => hf (List.isEmpty_iff.mp hcond)]

theorem findInventoryMatches_eq_nil (inv : List InventoryItem) (q : MatchQuery)
    (hp : primaryPass inv q = []) (hn : normalize q.name ≠ [])
    (hf : fuzzySpec inv (normalize q.name) = []) :
    findInventoryMatches inv q = [] := by
  rw [findInventoryMatches_eq_take_fuzzy inv q hp hn, hf]
  rfl

/-! ### Ranking helpers -/

theorem primaryPass_items_sublist (inv : List InventoryItem) (q : MatchQuery) :
    List.Sublist ((primaryPass inv q).map InventoryMatch.item) inv := by
  rw [primaryPass_eq_filterMap]
  exact filterMap_items_sublist _ (primarySpec_item q) inv

theorem fuzzyList_items_sublist (inv : List InventoryItem) (name : Str) :
    List.Sublist
      (((inv.map (fuzzyFor name)).filter fun m =>
        decide (3/10 < m.matchConfidence)).map InventoryMatch.item) inv := by
  rw [List.filter_map, List.map_map]
  have hid : (InventoryMatch.item ∘ fuzzyFor name) = id := funext fun x => rfl
  rw [hid, List.map_id]
  exact List.filter_sublist inv

theorem take_sort_filter_items_sublist (inv : List InventoryItem)
    (L : List InventoryMatch) (k : Nat) (c : ℚ)
    (hL : List.Sublist (L.map InventoryMatch.item) inv) :
    List.Sublist
      ((((sortByConfDesc L).take k).filter fun m =>
        decide (m.matchConfidence = c)).map InventoryMatch.item) inv := by
  have hp : ∀ x y : InventoryMatch, decide (x.matchConfidence = c) = true →
      decide (y.matchConfidence = c) = true → confGE x y := by
    intro x y hx hy
    have hx' := of_decide_eq_true hx
    have hy' := of_decide_eq_true hy
    unfold confGE
    rw [hx', hy']
  have h1 : List.Sublist
      (((sortByConfDesc L).take k).filter fun m => decide (m.matchConfidence = c))
      ((sortByConfDesc L).filter fun m => decide (m.matchConfidence = c)) :=
    (List.take_sublist k _).filter _
  have h2 : ((sortByConfDesc L).filter fun m => decide (m.matchConfidence = c))
      = L.filter fun m => decide (m.matchConfidence = c) :=
    filter_insertionSort confGE _ hp L
  rw [h2] at h1
  have h3 := h1.trans (List.filter_sublist L)
  exact (h3.map InventoryMatch.item).trans hL

theorem pairwise_take_sortByConfDesc (L : List InventoryMatch) (k : Nat) :
    List.Pairwise (fun a b => b.matchConfidence ≤ a.matchConfidence)
      ((sortByConfDesc L).take k) := by
  have hs : List.Pairwise confGE (sortByConfDesc L) :=
    List.sorted_insertionSort confGE L
  exact List.Pairwise.sublist (List.take_sublist k _) hs

/-! ### Claims -/

/-- C1: for every query and every catalog item, the primary pass of
`matchItems` evaluates the four criteria for that item in the strict priority
order sku, name, brand, category and stops at the first one that fires, so the
item contributes at most one `MatchResult` — `primarySpec` (confidence 1.0 /
sku on exact normalized-SKU equality, else 0.9 / name on mutual name
containment, else 0.6 / brand on brand containment, else 0.4 / category on
category containment, else nothing); the pass as a whole is exactly the
per-item contributions in catalog order. -/
theorem claim_primary_pass_per_item (inv : List InventoryItem) (q : MatchQuery) :
    primaryPass inv q = inv.filterMap (primarySpec q) :=
  primaryPass_eq_filterMap inv q

/-- C2: the fuzzy fallback of `matchItems` runs exactly when the primary pass
produced zero results and the normalized `query.name` is non-empty; in that
case the result is the top 3 of `fuzzySpec` (every catalog item scored by
`confidence = max(0.2, overlap / max(1, itemNameTokenCount) - lengthDiff *
0.02)`, kept only above the strict 0.3 threshold, sorted descending by
confidence), and if no item exceeds the threshold the result is the empty
sequence; when the fallback is not triggered, the result is the sorted,
truncated primary pass. -/
theorem claim_fuzzy_fallback (inv : List InventoryItem) (q : MatchQuery) :
    (primaryPass inv q = [] → normalize q.name ≠ [] →
      (findInventoryMatches inv q = (fuzzySpec inv (normalize q.name)).take 3
        ∧ (fuzzySpec inv (normalize q.name) = [] → findInventoryMatches inv q = [])))
    ∧ (primaryPass inv q ≠ [] ∨ normalize q.name = [] →
        findInventoryMatches inv q = (sortByConfDesc (primaryPass inv q)).take 5) :=
  ⟨fun hp hn =>
    ⟨findInventoryMatches_eq_take_fuzzy inv q hp hn,
     fun hf => findInventoryMatches_eq_nil inv q hp hn hf⟩,
   fun h => findInventoryMatches_eq_primary inv q h⟩

/-- Witness for C2 at a concrete input: the one-item catalog `[itemA]` with
query name `"zx"` has an empty primary pass, so the result is the fuzzy
fallback's top 3. -/
theorem claim_fuzzy_fallback_witness :
    findInventoryMatches [itemA] ⟨none, some (str "zx"), none, none⟩
      = (fuzzySpec [itemA] (normalize (some (str "zx")))).take 3 :=
  ((claim_fuzzy_fallback [itemA] ⟨none, some (str "zx"), none, none⟩).1 rfl
    (by decide)).1

/-- C3: `matchItems` results are non-increasing in `matchConfidence`; the
length is at most 5, and at most 3 when the fuzzy fallback is triggered
(primary pass empty and normalized name non-empty); and among results of any
one confidence value the items appear in catalog order (stable sort): their
item sequence is a sublist of the catalog. -/
theorem claim_results_sorted_bounded_stable (inv : List InventoryItem)
    (q : MatchQuery) :
    List.Pairwise (fun a b => b.matchConfidence ≤ a.matchConfidence)
      (findInventoryMatches inv q)
    ∧ (findInventoryMatches inv q).length ≤ 5
    ∧ (primaryPass inv q = [] → normalize q.name ≠ [] →
        (findInventoryMatches inv q).length ≤ 3)
    ∧ ∀ c : ℚ, List.Sublist
        (((findInventoryMatches inv q).filter fun m =>
          decide (m.matchConfidence = c)).map InventoryMatch.item) inv := by
  by_cases htrig : primaryPass inv q = [] ∧ normalize q.name ≠ []
  · obtain ⟨hp, hn⟩ := htrig
    rw [findInventoryMatches_eq_take_fuzzy inv q hp hn, fuzzySpec_eq]
    refine ⟨pairwise_take_sortByConfDesc _ 3, ?_, ?_, ?_⟩
    · exact le_trans (List.length_take_le 3 _) (by norm_num)
    · intro _ _
      exact List.length_take_le 3 _
    · intro c
      exact take_sort_filter_items_sublist inv _ 3 c (fuzzyList_items_sublist inv _)
  · have h : primaryPass inv q ≠ [] ∨ normalize q.name = [] := by
      by_cases hp : primaryPass inv q = []
      · right
        by_contra hn
        exact htrig ⟨hp, hn⟩
      · left
        exact hp
    rw [findInventoryMatches_eq_primary inv q h]
    refine ⟨pairwise_take_sortByConfDesc _ 5, List.length_take_le 5 _, ?_, ?_⟩
    · intro hp hn
      exact absurd ⟨hp, hn⟩ htrig
    · intro c
      exact take_sort_filter_items_sublist inv _ 5 c (primaryPass_items_sublist inv q)

/-- Witness for C3 at a concrete input triggering the fuzzy fallback: the
length bound 3 and the stability sublist at confidence 1. -/
theorem claim_results_sorted_bounded_stable_witness :
    (findInventoryMatches [itemA] ⟨none, some (str "zx"), none, none⟩).length ≤ 3
    ∧ List.Sublist
        (((findInventoryMatches [itemA] ⟨none, some (str "zx"), none, none⟩).filter
          fun m => decide (m.matchConfidence = 1)).map InventoryMatch.item) [itemA] :=
  ⟨(claim_results_sorted_bounded_stable [itemA]
      ⟨none, some (str "zx"), none, none⟩).2.2.1 rfl (by decide),
   (claim_results_sorted_bounded_stable [itemA]
      ⟨none, some (str "zx"), none, none⟩).2.2.2 1⟩

/-- C4: `estimateLoss` returns none whenever its preconditions are violated:
for every `nameOrSku` and `quantity` with `nameOrSku` empty or `quantity` not
strictly greater than 0, it returns none (a value, no error raised). -/
theorem claim_estimateLoss_invalid (inv : List InventoryItem)
    (nameOrSku : Str) (quantity : ℚ)
    (h : nameOrSku = [] ∨ quantity ≤ 0) :
    estimateLossForItem inv nameOrSku quantity = none := by
  unfold estimateLossForItem
  rw [if_pos h]

/-- Witness for C4: `estimateLoss(x, 0)`, `estimateLoss(x, -5)` and
`estimateLoss("", 10)` return none. -/
theorem claim_estimateLoss_invalid_witness :
    estimateLossForItem [itemA] (str "x") 0 = none
    ∧ estimateLossForItem [itemA] (str "x") (-5) = none
    ∧ estimateLossForItem [itemA] [] 10 = none :=
  ⟨claim_estimateLoss_invalid [itemA] (str "x") 0 (Or.inr le_rfl),
   claim_estimateLoss_invalid [itemA] (str "x") (-5) (Or.inr (by norm_num)),
   claim_estimateLoss_invalid [itemA] [] 10 (Or.inl rfl)⟩

/-- C5: when its preconditions hold, `estimateLoss` calls the match engine
with both `name` and `sku` set to `nameOrSku` and takes only the top-ranked
result, returning none if the engine returns nothing; otherwise the
`LossEstimate` has `perUnitValue` the matched item's `unitPrice`, `quantity`
the effective quantity (the argument, which in this rational model is always a
finite number), and `totalValue = perUnitValue * quantity` exactly. -/
theorem claim_estimateLoss_valid (inv : List InventoryItem)
    (nameOrSku : Str) (quantity : ℚ)
    (hn : nameOrSku ≠ []) (hq : 0 < quantity) :
    (findInventoryMatches inv ⟨some nameOrSku, some nameOrSku, none, none⟩ = [] →
      estimateLossForItem inv nameOrSku quantity = none)
    ∧ ∀ m rest,
        findInventoryMatches inv ⟨some nameOrSku, some nameOrSku, none, none⟩
          = m :: rest →
        estimateLossForItem inv nameOrSku quantity
          = some ⟨m.item, quantity, m.item.unitPrice * quantity, m.item.unitPrice⟩ := by
  have hcond : ¬ (nameOrSku = [] ∨ quantity ≤ 0) := by
    rintro (h | h)
    · exact hn h
    · exact absurd hq (not_lt.mpr h)
  constructor
  · intro hfind
    unfold estimateLossForItem
    rw [if_neg hcond, hfind]
  · intro m rest hfind
    unfold estimateLossForItem
    rw [if_neg hcond, hfind]
    rfl

/-- Witness for C5 on the spec §8 scenario: `estimateLoss("Amul Milk 500ml",
50)` against the one-item catalog `[itemA]` yields quantity 50, per-unit value
`itemA.unitPrice = 72`, and total `72 * 50`. -/
theorem claim_estimateLoss_valid_witness :
    estimateLossForItem [itemA] (str "Amul Milk 500ml") 50
      = some ⟨itemA, 50, itemA.unitPrice * 50, itemA.unitPrice⟩ :=
  (claim_estimateLoss_valid [itemA] (str "Amul Milk 500ml") 50
    (by decide) (by norm_num)).2 ⟨itemA, 9/10, MatchedBy.name⟩ [] rfl

/-- C6: `resolveItem` returns none if the query is empty after normalization;
otherwise, scanning the catalog in order, it returns the first item whose
normalized SKU or normalized name equals the normalized query exactly, and if
no such item exists, the first item whose normalized name contains the
normalized query as a substring; none if neither search succeeds — i.e. the
source function coincides with the spec's contract `resolveItemSpec` (and, by
its `Option` type, never returns more than one candidate). -/
theorem claim_resolveItem_contract (inv : List InventoryItem) (q : Str) :
    resolveInventoryItem inv q = resolveItemSpec inv q := by
  by_cases hq : q = []
  · subst hq
    rfl
  · unfold resolveInventoryItem
    rw [if_neg hq]
    rfl

/-- C7: `normalize` is idempotent, and `matchItems` is invariant under
case/whitespace changes of its query fields: queries whose fields normalize
equal yield identical results. -/
theorem claim_normalize_idem_invariant :
    (∀ v : Option Str, normalize (some (normalize v)) = normalize v)
    ∧ ∀ (inv : List InventoryItem) (q q' : MatchQuery),
        normalize q.sku = normalize q'.sku →
        normalize q.name = normalize q'.name →
        normalize q.brand = normalize q'.brand →
        normalize q.category = normalize q'.category →
        findInventoryMatches inv q = findInventoryMatches inv q' := by
  refine ⟨normalize_idem, ?_⟩
  intro inv q q' hs hn hb hc
  unfold findInventoryMatches primaryPass
  rw [hs, hn, hb, hc]

/-- Witness for C7: `matchItems({sku: " SKU123 "})` and
`matchItems({sku: "sku123"})` yield identical results for an item with SKU
`SKU123`. -/
theorem claim_normalize_idem_invariant_witness :
    findInventoryMatches [itemS] ⟨some (str " SKU123 "), none, none, none⟩
      = findInventoryMatches [itemS] ⟨some (str "sku123"), none, none, none⟩ :=
  claim_normalize_idem_invariant.2 [itemS]
    ⟨some (str " SKU123 "), none, none, none⟩
    ⟨some (str "sku123"), none, none, none⟩ (by decide) rfl rfl rfl

/-- C8: for every `withinDays` (default 30), `expiringItems` returns exactly
the catalog items whose `daysUntilExpiry` is present and at most `withinDays`
(as a permutation of that filter), sorted ascending by `daysUntilExpiry`;
items with absent `daysUntilExpiry` never appear in the result. -/
theorem claim_expiringItems_contract (inv : List InventoryItem) (withinDays : ℚ) :
    getExpiringItemsDefault inv = getExpiringItems inv 30
    ∧ List.Perm (getExpiringItems inv withinDays)
        (inv.filter fun item =>
          match item.daysUntilExpiry with
          | some d => decide (d ≤ withinDays)
          | none => false)
    ∧ List.Pairwise
        (fun a b => a.daysUntilExpiry.getD 0 ≤ b.daysUntilExpiry.getD 0)
        (getExpiringItems inv withinDays)
    ∧ ∀ a ∈ getExpiringItems inv withinDays, a.daysUntilExpiry.isSome = true := by
  refine ⟨rfl, List.perm_insertionSort expiryLE _,
    List.sorted_insertionSort expiryLE _, ?_⟩
  intro a ha
  have hmem : a ∈ inv.filter (fun item =>
      match item.daysUntilExpiry with
      | some d => decide (d ≤ withinDays)
      | none => false) :=
    (List.mem_insertionSort expiryLE).mp ha
  have hpred := (List.mem_filter.mp hmem).2
  cases hda : a.daysUntilExpiry with
  | none =>
    rw [hda] at hpred
    simp at hpred
  | some x => rfl

/-- Witness for C8 on the spec §8 scenario (items with `daysUntilExpiry` 10,
2, and absent): `expiringItems(7)` returns exactly the item with value 2, and
its `daysUntilExpiry` is present. -/
theorem claim_expiringItems_contract_witness :
    List.Perm (getExpiringItems [itemE10, itemE2, itemEN] 7) [itemE2]
    ∧ itemE2.daysUntilExpiry.isSome = true :=
  ⟨(claim_expiringItems_contract [itemE10, itemE2, itemEN] 7).2.1,
   (claim_expiringItems_contract [itemE10, itemE2, itemEN] 7).2.2.2 itemE2
     (List.mem_singleton_self itemE2)⟩

/-- C9: no exposed operation mutates the catalog: after any call, the module
state — hence the catalog sequence, element for element and in order — equals
its value before the call, and `listCatalog` still returns it. -/
theorem claim_ops_preserve_catalog (s : EngineState) (q : MatchQuery)
    (query nameOrSku : Str) (quantity withinDays : ℚ) :
    (matchItemsOp q s).2 = s
    ∧ (resolveItemOp query s).2 = s
    ∧ (estimateLossOp nameOrSku quantity s).2 = s
    ∧ (expiringItemsOp withinDays s).2 = s
    ∧ (listCatalogOp s).2 = s
    ∧ (listCatalogOp (matchItemsOp q s).2).1 = s.inventory :=
  ⟨rfl, rfl, rfl, rfl, rfl, rfl⟩

/-- C10: in `expiringItems`, the `?? 0` fallback in the sort comparator is
unreachable: every element of the filtered sequence being sorted has a numeric
`daysUntilExpiry` (so `getD` returns the actual value), and the sort is
unchanged if the default 0 is replaced by any other value. -/
theorem claim_expiry_default_unreachable (inv : List InventoryItem)
    (withinDays : ℚ) :
    (∀ a ∈ (inv.filter fun item =>
        match item.daysUntilExpiry with
        | some d => decide (d ≤ withinDays)
        | none => false),
      ∃ x, a.daysUntilExpiry = some x ∧ a.daysUntilExpiry.getD 0 = x)
    ∧ ∀ dflt : ℚ,
        getExpiringItems inv withinDays
          = (inv.filter fun item =>
              match item.daysUntilExpiry with
              | some d => decide (d ≤ withinDays)
              | none => false).insertionSort (expiryLED dflt) := by
  have key : ∀ a ∈ (inv.filter fun item =>
      match item.daysUntilExpiry with
      | some d => decide (d ≤ withinDays)
      | none => false),
      ∃ x, a.daysUntilExpiry = some x ∧ a.daysUntilExpiry.getD 0 = x := by
    intro a ha
    have hpred := (List.mem_filter.mp ha).2
    cases hda : a.daysUntilExpiry with
    | none =>
      rw [hda] at hpred
      simp at hpred
    | some x => exact ⟨x, rfl, rfl⟩
  refine ⟨key, ?_⟩
  intro dflt
  unfold getExpiringItems
  apply insertionSort_congr
  intro x hx y hy
  obtain ⟨xv, hxv, _⟩ := key x hx
  obtain ⟨yv, hyv, _⟩ := key y hy
  unfold expiryLE expiryLED
  rw [hxv, hyv]
  simp

/-- Witness for C10: the filtered element `itemE2` of the expiry scenario has
a present `daysUntilExpiry` whose `getD 0` is the actual value. -/
theorem claim_expiry_default_unreachable_witness :
    ∃ x, itemE2.daysUntilExpiry = some x ∧ itemE2.daysUntilExpiry.getD 0 = x :=
  (claim_expiry_default_unreachable [itemE10, itemE2, itemEN] 7).1 itemE2
    (by decide)

end Inventory
